import Mathlib

/-!
# Register name resolution and float-register-set sizing (PowerPC JIT backend)

Shallow embedding of `js/src/jit/osxppc/Architecture-ppc.cpp`.

* A `const char *` argument is modelled by the `String` of the characters that stand
  before its terminating NUL.
* `Registers::Code` / `FloatRegisters::Code` values are modelled by their numeric value.
* `uint32_t` results are natural numbers reduced modulo `2 ^ 32`.
* The register catalogs (`Total`, `GetName`, `Invalid`) are declared in
  `Architecture-ppc.h`, which is not among the sources; they are a parameter
  (`Catalog`) of every definition that reads them.
-/

namespace PPC

/-! ## Definitions -/

/-- Modelled from the spec: the register catalog that `Architecture-ppc.h` declares
(the header is not among the sources).  "An ordered, fixed-size enumeration of
registers (count = `Total`), each with a canonical display name obtainable by index,
and a distinguished `Invalid` sentinel code."  The same shape serves the integer
class (`Registers`) and the floating-point class (`FloatRegisters`). -/
structure Catalog where
  /-- number of registers of the class -/
  Total : Nat
  /-- canonical display name of the register with index `i` -/
  GetName : Nat → String
  /-- the sentinel code that `FromName` returns for an unrecognised name -/
  Invalid : Nat
  /-- the sentinel is distinguished: it is the code of no register of the class -/
  Invalid_distinguished : ∀ i, i < Total → i ≠ Invalid

/-- The libc routine `strcmp` on the character lists of two NUL-terminated strings:
negative, zero or positive as the first string is below, equal to, or above the second.
The end of a string is its NUL terminator, which is below every character. -/
def strcmpChars : List Char → List Char → Int
  | [], [] => 0
  | [], _ :: _ => -1
  | _ :: _, [] => 1
  | a :: as, b :: bs =>
    if a.toNat < b.toNat then -1
    else if b.toNat < a.toNat then 1
    else strcmpChars as bs

/-- The call `strcmp(a, b)`. -/
def strcmp (a b : String) : Int := strcmpChars a.data b.data

/-- The loop `for (size_t i = 0; i < Total; i++) { if (strcmp(GetName(i), name) == 0)
return Code(i); } return Invalid;` shared by both `FromName` functions, entered at
index `i` with `remaining = Total - i` iterations left. -/
def scanNames (c : Catalog) (name : String) : (remaining : Nat) → (i : Nat) → Nat
  | 0, _ => c.Invalid
  | remaining + 1, i =>
    if strcmp (c.GetName i) name = 0 then i
    else scanNames c name remaining (i + 1)

/-- The function `Registers::FromName(const char *name)`. -/
def Registers.FromName (c : Catalog) (name : String) : Nat :=
  -- Check for some register aliases first.
  if strcmp name "sp" = 0 ∨ strcmp name "r1" = 0 then 1
  else if strcmp name "r12" = 0 then 12
  else if strcmp name "r3" = 0 then 3
  else scanNames c name c.Total 0

/-- The function `FloatRegisters::FromName(const char *name)`. -/
def FloatRegisters.FromName (c : Catalog) (name : String) : Nat :=
  scanNames c name c.Total 0

/-- The constant `sizeof(double)` of the target. -/
def sizeofDouble : Nat := 8

/-- Modelled from the spec: the type `FloatRegisterSet` of `jit/RegisterSets.h` (not among
the sources).  "A set of Float Register Catalog entries (bitset-like) ... no duplicate
entries (set semantics)."  The entries are held by their codes. -/
structure FloatRegisterSet where
  /-- codes of the registers in the set -/
  regs : Finset Nat
deriving DecidableEq

/-- Modelled from the spec: the member `size()` of `FloatRegisterSet` (declared in
`jit/RegisterSets.h`, not among the sources): the number of registers in the set. -/
def FloatRegisterSet.size (s : FloatRegisterSet) : Nat := s.regs.card

/-- Modelled from the spec: the class `FloatRegister` of `Architecture-ppc.h` (not among the
sources), as far as the functions below read it: a register is identified by its code. -/
structure FloatRegister where
  /-- the member `code_` -/
  code_ : Nat
deriving DecidableEq

/-- Modelled from the spec: the accessor `code()` of `FloatRegister`. -/
def FloatRegister.code (r : FloatRegister) : Nat := r.code_

/-- The function `FloatRegister::ReduceSetForPush(const FloatRegisterSet &s)`; the branch
under `#if(0)` is not compiled. -/
def FloatRegister.ReduceSetForPush (s : FloatRegisterSet) : FloatRegisterSet := s

/-- The function `FloatRegister::GetSizeInBytes(const FloatRegisterSet &s)`, a `uint32_t`. -/
def FloatRegister.GetSizeInBytes (s : FloatRegisterSet) : Nat :=
  (s.size * sizeofDouble) % 2 ^ 32

/-- The function `FloatRegister::GetPushSizeInBytes(const FloatRegisterSet &s)`, a
`uint32_t`. -/
def FloatRegister.GetPushSizeInBytes (s : FloatRegisterSet) : Nat :=
  (s.size * sizeofDouble) % 2 ^ 32

/-- The function `FloatRegister::getRegisterDumpOffsetInBytes()`, a `uint32_t`. -/
def FloatRegister.getRegisterDumpOffsetInBytes (r : FloatRegister) : Nat :=
  (r.code * sizeofDouble) % 2 ^ 32

/-- A catalog given by the list of its canonical names (index = position). -/
def Catalog.ofNames (names : List String) (invalid : Nat)
    (h : ∀ i, i < names.length → i ≠ invalid) : Catalog :=
  { Total := names.length, GetName := fun i => names.getD i "", Invalid := invalid,
    Invalid_distinguished := h }

/-- Sample integer catalog for instantiating the theorems: 32 general-purpose registers
and the sentinel 32. -/
def sampleRegisters : Catalog :=
  Catalog.ofNames
    ["r0", "sp", "toc", "r3", "r4", "r5", "r6", "r7",
     "r8", "r9", "r10", "r11", "r12", "r13", "r14", "r15",
     "r16", "r17", "r18", "r19", "r20", "r21", "r22", "r23",
     "r24", "r25", "r26", "r27", "r28", "r29", "r30", "r31"] 32 (by decide)

/-- Sample float catalog for instantiating the theorems: 32 floating-point registers and
the sentinel 32. -/
def sampleFloatRegisters : Catalog :=
  Catalog.ofNames
    ["f0", "f1", "f2", "f3", "f4", "f5", "f6", "f7",
     "f8", "f9", "f10", "f11", "f12", "f13", "f14", "f15",
     "f16", "f17", "f18", "f19", "f20", "f21", "f22", "f23",
     "f24", "f25", "f26", "f27", "f28", "f29", "f30", "f31"] 32 (by decide)

/-- An integer catalog in which two rows repeat the name of an earlier row: index 13 is
named "r3" and index 14 is named "r4". -/
def clashingRegisters : Catalog :=
  Catalog.ofNames
    ["r0", "sp", "toc", "r3", "r4", "r5", "r6", "r7",
     "r8", "r9", "r10", "r11", "r12", "r3", "r4", "r15",
     "r16", "r17", "r18", "r19", "r20", "r21", "r22", "r23",
     "r24", "r25", "r26", "r27", "r28", "r29", "r30", "r31"] 32 (by decide)

/-- The four names that `Registers::FromName` checks before it scans the table. -/
def aliasNames : List String := ["sp", "r1", "r12", "r3"]

/-! ## Auxiliary lemmas -/

theorem strcmpChars_eq_zero_iff (a b : List Char) : strcmpChars a b = 0 ↔ a = b := by
  induction a generalizing b with
  | nil => cases b <;> simp [strcmpChars]
  | cons x xs ih =>
    cases b with
    | nil => simp [strcmpChars]
    | cons y ys =>
      simp only [strcmpChars]
      by_cases h1 : x.toNat < y.toNat
      · have hne : x ≠ y := by rintro rfl; exact absurd h1 (lt_irrefl _)
        simp [h1, hne]
      · by_cases h2 : y.toNat < x.toNat
        · have hne : x ≠ y := by rintro rfl; exact absurd h2 (lt_irrefl _)
          simp [h1, h2, hne]
        · have hxy : x = y := by
            apply Char.ext
            apply UInt32.ext
            have : x.toNat = y.toNat := by omega
            exact this
          subst hxy
          simp [ih]

theorem strcmp_eq_zero_iff (a b : String) : strcmp a b = 0 ↔ a = b := by
  unfold strcmp
  rw [strcmpChars_eq_zero_iff]
  constructor
  · intro h; exact String.ext h
  · intro h; rw [h]

/-- What the table scan returns: either the sentinel, and then no index of the scanned
range carries the name, or the first index of the range that carries it. -/
theorem scanNames_spec (c : Catalog) (name : String) (n i : Nat) :
    (scanNames c name n i = c.Invalid ∧ ∀ j, i ≤ j → j < i + n → c.GetName j ≠ name) ∨
    (∃ k, i ≤ k ∧ k < i + n ∧ c.GetName k = name ∧
      (∀ j, i ≤ j → j < k → c.GetName j ≠ name) ∧ scanNames c name n i = k) := by
  induction n generalizing i with
  | zero =>
    left
    refine ⟨rfl, ?_⟩
    intro j h1 h2
    omega
  | succ n ih =>
    by_cases hhit : c.GetName i = name
    · right
      refine ⟨i, le_refl _, by omega, hhit, ?_, ?_⟩
      · intro j h1 h2
        omega
      · simp [scanNames, strcmp_eq_zero_iff, hhit]
    · have hstep : scanNames c name (n + 1) i = scanNames c name n (i + 1) := by
        simp [scanNames, strcmp_eq_zero_iff, hhit]
      rcases ih (i + 1) with ⟨hinv, hnone⟩ | ⟨k, hk1, hk2, hk3, hk4, hk5⟩
      · left
        refine ⟨by rw [hstep, hinv], ?_⟩
        intro j h1 h2
        by_cases hji : j = i
        · rw [hji]; exact hhit
        · exact hnone j (by omega) (by omega)
      · right
        refine ⟨k, by omega, by omega, hk3, ?_, by rw [hstep, hk5]⟩
        intro j h1 h2
        by_cases hji : j = i
        · rw [hji]; exact hhit
        · exact hk4 j (by omega) h2

/-- The scan returns the sentinel when no index carries the name. -/
theorem scanNames_eq_Invalid (c : Catalog) (name : String)
    (hnone : ∀ j, j < c.Total → c.GetName j ≠ name) :
    scanNames c name c.Total 0 = c.Invalid := by
  rcases scanNames_spec c name c.Total 0 with ⟨hinv, _⟩ | ⟨m, _, hm2, hm3, _, _⟩
  · exact hinv
  · exact absurd hm3 (hnone m (by omega))

/-- A scan that finds the name returns an index below `Total`, the first that carries it. -/
theorem scanNames_of_match (c : Catalog) (name : String)
    (hmatch : ∃ i, i < c.Total ∧ c.GetName i = name) :
    scanNames c name c.Total 0 < c.Total ∧
      c.GetName (scanNames c name c.Total 0) = name ∧
      ∀ j, j < scanNames c name c.Total 0 → c.GetName j ≠ name := by
  rcases scanNames_spec c name c.Total 0 with ⟨_, hnone⟩ | ⟨m, _, hm2, hm3, hm4, hm5⟩
  · obtain ⟨i, hi, hn⟩ := hmatch
    exact absurd hn (hnone i (Nat.zero_le _) (by omega))
  · rw [hm5]
    exact ⟨by omega, hm3, fun j hj => hm4 j (Nat.zero_le _) hj⟩

/-- Outside the four alias names, `Registers::FromName` is the table scan. -/
theorem Registers.FromName_eq_scan (c : Catalog) (name : String)
    (hsp : name ≠ "sp") (hr1 : name ≠ "r1") (hr12 : name ≠ "r12") (hr3 : name ≠ "r3") :
    Registers.FromName c name = scanNames c name c.Total 0 := by
  simp [Registers.FromName, strcmp_eq_zero_iff, hsp, hr1, hr12, hr3]

/-- A scan that does not return the sentinel returns an index below `Total` that carries
the name. -/
theorem scanNames_of_ne_Invalid (c : Catalog) (name : String)
    (hne : scanNames c name c.Total 0 ≠ c.Invalid) :
    scanNames c name c.Total 0 < c.Total ∧
      c.GetName (scanNames c name c.Total 0) = name := by
  rcases scanNames_spec c name c.Total 0 with ⟨hinv, _⟩ | ⟨m, _, hm2, hm3, _, hm5⟩
  · exact absurd hinv hne
  · rw [hm5]
    exact ⟨by omega, hm3⟩

/-! ## Claims on `Registers::FromName` -/

/-- C2: `Registers::FromName("sp")` and `Registers::FromName("r1")` both return code 1,
whatever the canonical name table holds. -/
theorem Registers.FromName_sp_r1 (c : Catalog) :
    Registers.FromName c "sp" = 1 ∧ Registers.FromName c "r1" = 1 := by
  constructor
  · simp [Registers.FromName, strcmp_eq_zero_iff]
  · simp [Registers.FromName, strcmp_eq_zero_iff]

/-- C3: `Registers::FromName("r12")` returns code 12 and `Registers::FromName("r3")` returns
code 3, whatever the canonical name table holds. -/
theorem Registers.FromName_r12_r3 (c : Catalog) :
    Registers.FromName c "r12" = 12 ∧ Registers.FromName c "r3" = 3 := by
  have a1 : ("r12" : String) ≠ "sp" := by decide
  have a2 : ("r12" : String) ≠ "r1" := by decide
  have b1 : ("r3" : String) ≠ "sp" := by decide
  have b2 : ("r3" : String) ≠ "r1" := by decide
  have b3 : ("r3" : String) ≠ "r12" := by decide
  constructor
  · simp [Registers.FromName, strcmp_eq_zero_iff, a1, a2]
  · simp [Registers.FromName, strcmp_eq_zero_iff, b1, b2, b3]

/-- C4: a name that is none of "sp", "r1", "r12", "r3" and equals `GetName(i)` for no
`i < Total` makes `Registers::FromName` return the `Invalid` sentinel. -/
theorem Registers.FromName_unrecognised (c : Catalog) (name : String)
    (halias : name ∉ aliasNames)
    (hnone : ∀ i, i < c.Total → c.GetName i ≠ name) :
    Registers.FromName c name = c.Invalid := by
  have hsp : name ≠ "sp" := fun h => halias (by rw [h]; decide)
  have hr1 : name ≠ "r1" := fun h => halias (by rw [h]; decide)
  have hr12 : name ≠ "r12" := fun h => halias (by rw [h]; decide)
  have hr3 : name ≠ "r3" := fun h => halias (by rw [h]; decide)
  rw [Registers.FromName_eq_scan c name hsp hr1 hr12 hr3]
  exact scanNames_eq_Invalid c name hnone

/-- Instances of C4 on the sample catalog: "not_a_register", and the names "SP", "R3" and
"R5", which differ from an alias or a canonical name only in letter case, all resolve to
the sentinel. -/
theorem Registers.FromName_unrecognised_witness :
    Registers.FromName sampleRegisters "not_a_register" = sampleRegisters.Invalid ∧
    Registers.FromName sampleRegisters "SP" = sampleRegisters.Invalid ∧
    Registers.FromName sampleRegisters "R3" = sampleRegisters.Invalid ∧
    Registers.FromName sampleRegisters "R5" = sampleRegisters.Invalid :=
  ⟨Registers.FromName_unrecognised sampleRegisters "not_a_register" (by decide) (by decide),
   Registers.FromName_unrecognised sampleRegisters "SP" (by decide) (by decide),
   Registers.FromName_unrecognised sampleRegisters "R3" (by decide) (by decide),
   Registers.FromName_unrecognised sampleRegisters "R5" (by decide) (by decide)⟩

/-- C5: in a catalog with more than 12 registers (so that the alias codes 1, 3 and 12 are
codes of the catalog), every name that is an alias ("sp", "r1", "r12", "r3") or a canonical
name makes `Registers::FromName` return a code `c` with `0 ≤ c < Total` that is not the
`Invalid` sentinel. -/
theorem Registers.FromName_valid (c : Catalog) (name : String) (hT : 12 < c.Total)
    (hmatch : name ∈ aliasNames ∨ ∃ i, i < c.Total ∧ c.GetName i = name) :
    0 ≤ Registers.FromName c name ∧ Registers.FromName c name < c.Total ∧
      Registers.FromName c name ≠ c.Invalid := by
  have hlt : Registers.FromName c name < c.Total := by
    by_cases h1 : name = "sp" ∨ name = "r1"
    · have hval : Registers.FromName c name = 1 := by
        simp [Registers.FromName, strcmp_eq_zero_iff, h1]
      omega
    · have hnsp : name ≠ "sp" := fun h => h1 (Or.inl h)
      have hnr1 : name ≠ "r1" := fun h => h1 (Or.inr h)
      by_cases h12 : name = "r12"
      · have hval : Registers.FromName c name = 12 := by
          simp [Registers.FromName, strcmp_eq_zero_iff, h12]
        omega
      · by_cases h3 : name = "r3"
        · have hval : Registers.FromName c name = 3 := by
            simp [Registers.FromName, strcmp_eq_zero_iff, h3]
          omega
        · have hnot : name ∉ aliasNames := by
            simp [aliasNames, hnsp, hnr1, h12, h3]
          rw [Registers.FromName_eq_scan c name hnsp hnr1 h12 h3]
          rcases hmatch with h | h
          · exact absurd h hnot
          · exact (scanNames_of_match c name h).1
  exact ⟨Nat.zero_le _, hlt, c.Invalid_distinguished _ hlt⟩

/-- Instances of C5 on the sample catalog: the alias "r1", which is no canonical name
there, and the canonical name "toc". -/
theorem Registers.FromName_valid_witness :
    (Registers.FromName sampleRegisters "r1" < sampleRegisters.Total ∧
      Registers.FromName sampleRegisters "r1" ≠ sampleRegisters.Invalid) ∧
    (Registers.FromName sampleRegisters "toc" < sampleRegisters.Total ∧
      Registers.FromName sampleRegisters "toc" ≠ sampleRegisters.Invalid) :=
  ⟨(Registers.FromName_valid sampleRegisters "r1" (by decide) (Or.inl (by decide))).2,
   (Registers.FromName_valid sampleRegisters "toc" (by decide)
      (Or.inr ⟨2, by decide, by decide⟩)).2⟩

/-! ## Claims on `FloatRegisters::FromName` -/

/-- C7: `FloatRegisters::FromName` has no alias list: for every name it returns the
`Invalid` sentinel if and only if the name equals `GetName(i)` for no `i < Total` of the
float catalog. -/
theorem FloatRegisters.FromName_eq_Invalid_iff (c : Catalog) (name : String) :
    FloatRegisters.FromName c name = c.Invalid ↔
      ∀ i, i < c.Total → c.GetName i ≠ name := by
  unfold FloatRegisters.FromName
  constructor
  · intro h i hi hname
    have hm := (scanNames_of_match c name ⟨i, hi, hname⟩).1
    rw [h] at hm
    exact c.Invalid_distinguished _ hm rfl
  · intro h
    exact scanNames_eq_Invalid c name h

/-- Instances of C7 on the sample float catalog: "bogus" and the integer aliases "sp",
"r1", "r12", "r3" are no float canonical names and resolve to the sentinel, while the
canonical name "f9" does not. -/
theorem FloatRegisters.FromName_eq_Invalid_iff_witness :
    FloatRegisters.FromName sampleFloatRegisters "bogus" = sampleFloatRegisters.Invalid ∧
    FloatRegisters.FromName sampleFloatRegisters "sp" = sampleFloatRegisters.Invalid ∧
    FloatRegisters.FromName sampleFloatRegisters "r1" = sampleFloatRegisters.Invalid ∧
    FloatRegisters.FromName sampleFloatRegisters "r12" = sampleFloatRegisters.Invalid ∧
    FloatRegisters.FromName sampleFloatRegisters "r3" = sampleFloatRegisters.Invalid ∧
    FloatRegisters.FromName sampleFloatRegisters "f9" ≠ sampleFloatRegisters.Invalid :=
  ⟨(FloatRegisters.FromName_eq_Invalid_iff sampleFloatRegisters "bogus").mpr (by decide),
   (FloatRegisters.FromName_eq_Invalid_iff sampleFloatRegisters "sp").mpr (by decide),
   (FloatRegisters.FromName_eq_Invalid_iff sampleFloatRegisters "r1").mpr (by decide),
   (FloatRegisters.FromName_eq_Invalid_iff sampleFloatRegisters "r12").mpr (by decide),
   (FloatRegisters.FromName_eq_Invalid_iff sampleFloatRegisters "r3").mpr (by decide),
   fun h => absurd ((FloatRegisters.FromName_eq_Invalid_iff sampleFloatRegisters "f9").mp h)
     (by decide)⟩

/-! ## Claims on the sizes of a float register set -/

/-- C8: for every float register set `S`, `FloatRegister::GetSizeInBytes(S)` is `8 * |S|`
as a `uint32_t` value; when `S` is a subset of a float catalog whose save area of 8 bytes
per register has a `uint32_t` size, the product does not wrap and the result is `8 * |S|`
itself. -/
theorem FloatRegister.GetSizeInBytes_eq (c : Catalog) (s : FloatRegisterSet)
    (hT : 8 * c.Total < 2 ^ 32) :
    FloatRegister.GetSizeInBytes s = (8 * s.regs.card) % 2 ^ 32 ∧
      ((∀ r, r ∈ s.regs → r < c.Total) → FloatRegister.GetSizeInBytes s = 8 * s.regs.card) := by
  have hval : FloatRegister.GetSizeInBytes s = (8 * s.regs.card) % 2 ^ 32 := by
    simp [FloatRegister.GetSizeInBytes, FloatRegisterSet.size, sizeofDouble, Nat.mul_comm]
  refine ⟨hval, ?_⟩
  intro hsub
  have hsubset : s.regs ⊆ Finset.range c.Total := by
    intro r hr
    exact Finset.mem_range.mpr (hsub r hr)
  have hcard : s.regs.card ≤ c.Total := by
    have := Finset.card_le_card hsubset
    rwa [Finset.card_range] at this
  rw [hval]
  exact Nat.mod_eq_of_lt (by omega)

/-- Instance of C8: the set of the registers with codes 0, 1 and 5 of the sample float
catalog takes 24 bytes. -/
theorem FloatRegister.GetSizeInBytes_eq_witness :
    8 * sampleFloatRegisters.Total < 2 ^ 32 ∧
    (∀ r, r ∈ ({0, 1, 5} : Finset Nat) → r < sampleFloatRegisters.Total) ∧
    FloatRegister.GetSizeInBytes ⟨{0, 1, 5}⟩ = 24 :=
  ⟨by decide, by decide,
   (FloatRegister.GetSizeInBytes_eq sampleFloatRegisters ⟨{0, 1, 5}⟩ (by decide)).2 (by decide)⟩

/-- C9: for every float register set `S`, `FloatRegister::GetPushSizeInBytes(S)` equals
`FloatRegister::GetSizeInBytes(S)`; the push size carries no alignment padding. -/
theorem FloatRegister.GetPushSizeInBytes_eq_GetSizeInBytes (s : FloatRegisterSet) :
    FloatRegister.GetPushSizeInBytes s = FloatRegister.GetSizeInBytes s := by
  unfold FloatRegister.GetPushSizeInBytes FloatRegister.GetSizeInBytes
  rfl

/-- C10: for every float register `r` whose code is a code of the float catalog (the
save area of 8 bytes per register having a `uint32_t` size),
`FloatRegister::getRegisterDumpOffsetInBytes` returns `8 * code(r)`; the register with
code 5 yields offset 40. -/
theorem FloatRegister.getRegisterDumpOffsetInBytes_eq (c : Catalog) (r : FloatRegister)
    (hT : 8 * c.Total < 2 ^ 32) (hr : r.code < c.Total) :
    FloatRegister.getRegisterDumpOffsetInBytes r = 8 * r.code ∧
      (r.code = 5 → FloatRegister.getRegisterDumpOffsetInBytes r = 40) := by
  have hval : FloatRegister.getRegisterDumpOffsetInBytes r = 8 * r.code := by
    unfold FloatRegister.getRegisterDumpOffsetInBytes sizeofDouble
    rw [Nat.mul_comm]
    exact Nat.mod_eq_of_lt (by omega)
  refine ⟨hval, ?_⟩
  intro h5
  rw [hval, h5]

/-- Instance of C10: in the sample float catalog the register with code 5 has dump offset
40. -/
theorem FloatRegister.getRegisterDumpOffsetInBytes_eq_witness :
    8 * sampleFloatRegisters.Total < 2 ^ 32 ∧
    FloatRegister.code ⟨5⟩ < sampleFloatRegisters.Total ∧
    FloatRegister.getRegisterDumpOffsetInBytes ⟨5⟩ = 40 :=
  ⟨by decide, by decide,
   (FloatRegister.getRegisterDumpOffsetInBytes_eq sampleFloatRegisters ⟨5⟩
      (by decide) (by decide)).2 rfl⟩

/-! ## Claims on the set reduction, lookup soundness and the save-area layout -/

/-- C11: for every float register set `S`, `FloatRegister::ReduceSetForPush(S)` returns `S`
itself; hence the output is a subset of the input and contains no register that `S` does
not contain. -/
theorem FloatRegister.ReduceSetForPush_eq (s : FloatRegisterSet) :
    FloatRegister.ReduceSetForPush s = s ∧
      (FloatRegister.ReduceSetForPush s).regs ⊆ s.regs ∧
      ∀ r, r ∉ s.regs → r ∉ (FloatRegister.ReduceSetForPush s).regs := by
  refine ⟨rfl, ?_, ?_⟩
  · intro r hr
    exact hr
  · intro r hr
    exact hr

/-- C12: for every name that is none of the aliases "sp", "r1", "r12", "r3" and that occurs
in the integer canonical name table, `Registers::FromName` returns the smallest index
`i < Total` with `GetName(i)` equal to the name. -/
theorem Registers.FromName_first_match (c : Catalog) (name : String)
    (halias : name ∉ aliasNames)
    (hocc : ∃ i, i < c.Total ∧ c.GetName i = name) :
    Registers.FromName c name < c.Total ∧
      c.GetName (Registers.FromName c name) = name ∧
      ∀ j, j < c.Total → c.GetName j = name → Registers.FromName c name ≤ j := by
  have hsp : name ≠ "sp" := fun h => halias (by rw [h]; decide)
  have hr1 : name ≠ "r1" := fun h => halias (by rw [h]; decide)
  have hr12 : name ≠ "r12" := fun h => halias (by rw [h]; decide)
  have hr3 : name ≠ "r3" := fun h => halias (by rw [h]; decide)
  rw [Registers.FromName_eq_scan c name hsp hr1 hr12 hr3]
  obtain ⟨hlt, hname, hfirst⟩ := scanNames_of_match c name hocc
  refine ⟨hlt, hname, ?_⟩
  intro j _ hj
  by_contra hcon
  exact hfirst j (by omega) hj

/-- Instance of C12: in the catalog that names both row 4 and row 14 "r4", the name "r4"
resolves to 4, the smaller of the two indices. -/
theorem Registers.FromName_first_match_witness :
    clashingRegisters.GetName 4 = "r4" ∧ clashingRegisters.GetName 14 = "r4" ∧
    Registers.FromName clashingRegisters "r4" = 4 ∧
    (∀ j, j < clashingRegisters.Total → clashingRegisters.GetName j = "r4" →
      Registers.FromName clashingRegisters "r4" ≤ j) :=
  ⟨by decide, by decide, by decide,
   (Registers.FromName_first_match clashingRegisters "r4" (by decide)
      ⟨4, by decide, by decide⟩).2.2⟩

/-- C13: soundness of the integer lookup.  For every name other than "sp", "r1", "r12",
"r3", a code that `Registers::FromName` returns and that is not `Invalid` lies below
`Total` and its canonical name is the name given.  For the alias names this need not
hold: in every catalog some alias name resolves to a code other than `Invalid` that is
not below `Total` or whose canonical name differs from the name given. -/
theorem Registers.FromName_sound (c : Catalog) (name : String)
    (halias : name ∉ aliasNames)
    (hne : Registers.FromName c name ≠ c.Invalid) :
    (Registers.FromName c name < c.Total ∧
      c.GetName (Registers.FromName c name) = name) ∧
    (∃ a, a ∈ aliasNames ∧ Registers.FromName c a ≠ c.Invalid ∧
      ¬ (Registers.FromName c a < c.Total ∧ c.GetName (Registers.FromName c a) = a)) := by
  constructor
  · have hsp : name ≠ "sp" := fun h => halias (by rw [h]; decide)
    have hr1 : name ≠ "r1" := fun h => halias (by rw [h]; decide)
    have hr12 : name ≠ "r12" := fun h => halias (by rw [h]; decide)
    have hr3 : name ≠ "r3" := fun h => halias (by rw [h]; decide)
    rw [Registers.FromName_eq_scan c name hsp hr1 hr12 hr3] at hne ⊢
    exact scanNames_of_ne_Invalid c name hne
  · have vsp : Registers.FromName c "sp" = 1 := by
      simp [Registers.FromName, strcmp_eq_zero_iff]
    have vr1 : Registers.FromName c "r1" = 1 := by
      simp [Registers.FromName, strcmp_eq_zero_iff]
    have a1 : ("r12" : String) ≠ "sp" := by decide
    have a2 : ("r12" : String) ≠ "r1" := by decide
    have vr12 : Registers.FromName c "r12" = 12 := by
      simp [Registers.FromName, strcmp_eq_zero_iff, a1, a2]
    by_cases hinv : c.Invalid = 1
    · refine ⟨"r12", by decide, ?_, ?_⟩
      · rw [vr12, hinv]
        decide
      · rw [vr12]
        intro h
        have h1 : (1 : Nat) < c.Total := by omega
        exact c.Invalid_distinguished 1 h1 hinv.symm
    · by_cases hname : c.GetName 1 = "sp"
      · refine ⟨"r1", by decide, ?_, ?_⟩
        · rw [vr1]
          exact fun h => hinv h.symm
        · rw [vr1]
          intro h
          rw [hname] at h
          exact absurd h.2 (by decide)
      · refine ⟨"sp", by decide, ?_, ?_⟩
        · rw [vsp]
          exact fun h => hinv h.symm
        · rw [vsp]
          intro h
          exact hname h.2

/-- Instance of C13 on the sample catalog: the canonical name "toc" resolves to a code below
`Total` that is named "toc", while the alias "r1" resolves to code 1, whose canonical name
is "sp". -/
theorem Registers.FromName_sound_witness :
    ((Registers.FromName sampleRegisters "toc" < sampleRegisters.Total ∧
      sampleRegisters.GetName (Registers.FromName sampleRegisters "toc") = "toc") ∧
    (∃ a, a ∈ aliasNames ∧ Registers.FromName sampleRegisters a ≠ sampleRegisters.Invalid ∧
      ¬ (Registers.FromName sampleRegisters a < sampleRegisters.Total ∧
        sampleRegisters.GetName (Registers.FromName sampleRegisters a) = a))) ∧
    Registers.FromName sampleRegisters "r1" = 1 ∧
    sampleRegisters.GetName (Registers.FromName sampleRegisters "r1") = "sp" :=
  ⟨Registers.FromName_sound sampleRegisters "toc" (by decide) (by decide),
   by decide, by decide⟩

/-- C14: soundness of the float lookup.  For every name, a code that
`FloatRegisters::FromName` returns and that is not `Invalid` lies below `Total` and its
canonical name is the name given. -/
theorem FloatRegisters.FloatFromName_sound (c : Catalog) (name : String)
    (hne : FloatRegisters.FromName c name ≠ c.Invalid) :
    FloatRegisters.FromName c name < c.Total ∧
      c.GetName (FloatRegisters.FromName c name) = name := by
  unfold FloatRegisters.FromName at hne ⊢
  exact scanNames_of_ne_Invalid c name hne

/-- Instance of C14 on the sample float catalog: "f9" resolves to a code below `Total`
that is named "f9". -/
theorem FloatRegisters.FloatFromName_sound_witness :
    FloatRegisters.FromName sampleFloatRegisters "f9" ≠ sampleFloatRegisters.Invalid ∧
    FloatRegisters.FromName sampleFloatRegisters "f9" < sampleFloatRegisters.Total ∧
    sampleFloatRegisters.GetName (FloatRegisters.FromName sampleFloatRegisters "f9") = "f9" :=
  ⟨by decide, FloatRegisters.FloatFromName_sound sampleFloatRegisters "f9" (by decide)⟩

/-- C15: save-area slots do not overlap.  For two float registers with distinct codes
below `Total` (the save area of 8 bytes per register having a `uint32_t` size), no byte
lies in both 8-byte ranges that start at their dump offsets, and each range lies inside a
save area of `8 * Total` bytes. -/
theorem FloatRegister.dumpSlots_disjoint (c : Catalog) (a b : FloatRegister)
    (hT : 8 * c.Total < 2 ^ 32)
    (ha : a.code < c.Total) (hb : b.code < c.Total) (hab : a.code ≠ b.code) :
    (∀ n, ¬ ((FloatRegister.getRegisterDumpOffsetInBytes a ≤ n ∧
              n < FloatRegister.getRegisterDumpOffsetInBytes a + 8) ∧
             (FloatRegister.getRegisterDumpOffsetInBytes b ≤ n ∧
              n < FloatRegister.getRegisterDumpOffsetInBytes b + 8))) ∧
    FloatRegister.getRegisterDumpOffsetInBytes a + 8 ≤ 8 * c.Total ∧
    FloatRegister.getRegisterDumpOffsetInBytes b + 8 ≤ 8 * c.Total := by
  have hoff : ∀ r : FloatRegister, r.code < c.Total →
      FloatRegister.getRegisterDumpOffsetInBytes r = 8 * r.code := by
    intro r hr
    unfold FloatRegister.getRegisterDumpOffsetInBytes sizeofDouble
    rw [Nat.mul_comm]
    exact Nat.mod_eq_of_lt (by omega)
  rw [hoff a ha, hoff b hb]
  refine ⟨?_, by omega, by omega⟩
  intro n hn
  omega

/-- Instance of C15 in the sample float catalog: the slots of the registers with codes 5
and 6 are the byte ranges from 40 and from 48, and the slot of the last register, code 31,
ends at byte 256, the size of the save area. -/
theorem FloatRegister.dumpSlots_disjoint_witness :
    FloatRegister.getRegisterDumpOffsetInBytes ⟨5⟩ = 40 ∧
    FloatRegister.getRegisterDumpOffsetInBytes ⟨6⟩ = 48 ∧
    (∀ n, ¬ ((FloatRegister.getRegisterDumpOffsetInBytes ⟨5⟩ ≤ n ∧
              n < FloatRegister.getRegisterDumpOffsetInBytes ⟨5⟩ + 8) ∧
             (FloatRegister.getRegisterDumpOffsetInBytes ⟨6⟩ ≤ n ∧
              n < FloatRegister.getRegisterDumpOffsetInBytes ⟨6⟩ + 8))) ∧
    FloatRegister.getRegisterDumpOffsetInBytes ⟨31⟩ + 8 ≤ 8 * sampleFloatRegisters.Total :=
  ⟨by decide, by decide,
   (FloatRegister.dumpSlots_disjoint sampleFloatRegisters ⟨5⟩ ⟨6⟩
      (by decide) (by decide) (by decide) (by decide)).1,
   (FloatRegister.dumpSlots_disjoint sampleFloatRegisters ⟨31⟩ ⟨0⟩
      (by decide) (by decide) (by decide) (by decide)).2.1⟩

/-- C16: reducing a set before a push does not change the number of bytes pushed: for
every float register set `S`, `GetPushSizeInBytes(ReduceSetForPush(S))` equals
`GetSizeInBytes(S)`, and `ReduceSetForPush` is idempotent. -/
theorem FloatRegister.GetPushSizeInBytes_ReduceSetForPush (s : FloatRegisterSet) :
    FloatRegister.GetPushSizeInBytes (FloatRegister.ReduceSetForPush s) =
        FloatRegister.GetSizeInBytes s ∧
      FloatRegister.ReduceSetForPush (FloatRegister.ReduceSetForPush s) =
        FloatRegister.ReduceSetForPush s := by
  constructor
  · unfold FloatRegister.ReduceSetForPush FloatRegister.GetPushSizeInBytes
      FloatRegister.GetSizeInBytes
    rfl
  · rfl

end PPC
